import Mathlib

/-!
Verification development for `src/zone_RDF/md_rdf_analysis.py` (class
`MDTrajAnalyser`).  The script streams through a frame range of an MD
trajectory, dynamically re-selects ions each frame, computes a per-frame RDF
histogram plus a cumulative coordination profile against a partner species,
and averages the retained frames.

The external trajectory-analysis library (MDAnalysis) is modelled by an
abstract `Universe` record: `selCount` is the number of atoms matched by a
selection expression at a frame (`u.select_atoms(...)` evaluated with the
trajectory positioned at that frame), `interRdf`/`interHist` are the
`rdf.rdf` / `rdf.count` arrays produced by `InterRDF(ions, partners,
nbins=150)` run on that single frame, and `interBins` is `rdf.bins`.
Machine floats of the script carry exact counts and averages of counts, so
they are embedded as rationals.
-/

namespace ZoneRDF

set_option maxRecDepth 8000

/-- Fixed number of radial bins, `nbins=150` at `md_rdf_analysis.py` line 92. -/
def nbins : Nat := 150

/-- Fixed bin index of the coordination-number read, `count[38]` at line 100. -/
def coordIndex : Nat := 38

/-- Default frame range `(20000, 25000)` assigned at line 68 when
`frame_range is None`. -/
def defaultFrameRange : Nat × Nat := (20000, 25000)

/-- Suffix appended to the ion selection at line 73,
`f" and cylayer {lower} {upper} 10 -10"`.  The two radial bounds enter the
selection string through Python's decimal rendering of the floats; the
rendered bounds are taken as the strings `lower`, `upper`. -/
def cylayerSuffix (lower upper : String) : String :=
  " and cylayer " ++ lower ++ " " ++ upper ++ " 10 -10"

/-- Effective ion-selection expression after lines 71-73: the cylindrical
layer predicate is appended exactly when a `region` is supplied. -/
def effectiveIonSel (ionSel : String) (region : Option (String × String)) : String :=
  match region with
  | none => ionSel
  | some (lo, hi) => ionSel ++ cylayerSuffix lo hi

/-- Frame indices visited by `u.trajectory[slice(start, stop)]` (line 80) for
non-negative bounds: Python slicing clamps both bounds to the trajectory
length. -/
def sliceIndices (len start stop : Nat) : List Nat :=
  List.range' (min start len) (min stop len - min start len)

/-- Running-sum form of `np.cumsum` (line 98): entry `i` of the result is the
sum of the first `i+1` entries of the input plus `acc`. -/
def cumsumFrom (acc : ℚ) : List ℚ → List ℚ
  | [] => []
  | x :: xs => (acc + x) :: cumsumFrom (acc + x) xs

/-- Embedding of `np.cumsum` on a one-dimensional array. -/
def cumsum (l : List ℚ) : List ℚ := cumsumFrom 0 l

/-- Elementwise sum of two rows (NumPy array addition on equal-length rows). -/
def vecAdd (a b : List ℚ) : List ℚ := List.zipWith (· + ·) a b

/-- Embedding of `np.mean(rows, axis=0)` on a list of equal-length rows
(lines 105 and 110).  On an empty list NumPy emits only a RuntimeWarning and
produces NaN instead of raising; that degenerate non-array outcome is
modelled as `none`. -/
def meanAxis0 : List (List ℚ) → Option (List ℚ)
  | [] => none
  | x :: xs => some ((xs.foldl vecAdd x).map (fun v => v / ((xs.length + 1 : Nat) : ℚ)))

/-- Embedding of `np.mean` on a one-dimensional array of scalars (line 107);
`none` again models the NaN outcome on an empty list. -/
def scalarMean : List ℚ → Option ℚ
  | [] => none
  | x :: xs => some ((x :: xs).sum / ((xs.length + 1 : Nat) : ℚ))

/-- Abstract model of the MDAnalysis universe loaded at line 64 together with
the per-frame outputs of the library calls made inside the loop. -/
structure Universe where
  /-- Number of frames of the loaded trajectory. -/
  nframes : Nat
  /-- Number of atoms matched by a selection expression when the trajectory
  is positioned at a given frame (`u.select_atoms`, lines 84-85): dynamic,
  per-frame membership. -/
  selCount : String → Nat → Nat
  /-- Per-frame `rdf.rdf` array of `InterRDF(ions, partners, nbins=150)` run
  on the single frame `t` (lines 92-93, 99), as a function of the ion and
  partner selection expressions that produced the two groups. -/
  interRdf : String → String → Nat → List ℚ
  /-- Per-frame `rdf.count` pair-count histogram of the same `InterRDF` run
  (line 98). -/
  interHist : String → String → Nat → List ℚ
  /-- Per-frame `rdf.bins` bin centers (line 96).  In the library these are
  determined by `nbins` and the default range only; the frame argument lets
  the development state that invariance rather than assume it. -/
  interBins : Nat → List ℚ

/-- Accumulator state of the frame loop: the lists `rdf_list`, `rdf_coord`,
`rdf_cumu` initialised at line 77 and the `bins` variable initialised to
`None` at line 78. -/
structure LoopState where
  rdf_list : List (List ℚ)
  rdf_coord : List ℚ
  rdf_cumu : List (List ℚ)
  bins : Option (List ℚ)

/-- Initial loop state (lines 77-78). -/
def initState : LoopState := ⟨[], [], [], none⟩

/-- Per-frame cumulative coordination profile,
`count = np.cumsum(rdf.count) / len(ions)` at line 98. -/
def frameProfile (u : Universe) (ionSel partnerSel : String) (t : Nat) : List ℚ :=
  (cumsum (u.interHist ionSel partnerSel t)).map
    (fun c => c / ((u.selCount ionSel t : Nat) : ℚ))

/-- One iteration of the frame loop (lines 80-101).  A frame whose ion
selection is empty is skipped (`continue`, line 89); otherwise the per-frame
RDF, the profile value at `coordIndex` and the profile itself are appended,
and `bins` is assigned from `rdf.bins` if still unset (lines 95-96).
Python's `count[38]` read presumes at least 39 entries (it would raise
IndexError otherwise); it is embedded as `getD coordIndex 0`, and the
in-bounds fact is proved separately from the library's histogram-length
contract. -/
def stepFrame (u : Universe) (ionSel partnerSel : String) (s : LoopState) (t : Nat) :
    LoopState :=
  if u.selCount ionSel t = 0 then s
  else
    { rdf_list := s.rdf_list ++ [u.interRdf ionSel partnerSel t]
      rdf_coord := s.rdf_coord ++ [(frameProfile u ionSel partnerSel t).getD coordIndex 0]
      rdf_cumu := s.rdf_cumu ++ [frameProfile u ionSel partnerSel t]
      bins := some (s.bins.getD (u.interBins t)) }

/-- The whole frame loop of `analyze_rdf` over a concrete list of frame
indices. -/
def runLoop (u : Universe) (ionSel partnerSel : String) (frames : List Nat) : LoopState :=
  frames.foldl (stepFrame u ionSel partnerSel) initState

/-- Frame indices iterated by the loop at line 80 after the default of
line 68 has been applied. -/
def framesIterated (u : Universe) (frameRange : Option (Nat × Nat)) : List Nat :=
  let fr := frameRange.getD defaultFrameRange
  sliceIndices u.nframes fr.1 fr.2

/-- Value returned by `analyze_rdf` at line 112: `(bins, rdf_avg, cumu_avg,
rdf_coord)`.  `bins` is `none` when no frame was retained (the variable is
still `None`), and the two averages are `none` exactly when NumPy's mean of
an empty list produced its NaN non-array result. -/
structure ZoneResult where
  bins : Option (List ℚ)
  rdf_avg : Option (List ℚ)
  cumu_avg : Option (List ℚ)
  rdf_coord : List ℚ

/-- Embedding of `MDTrajAnalyser.analyze_rdf` (lines 42-112). -/
def analyze_rdf (u : Universe) (ion_selection partner_selection : String)
    (region : Option (String × String)) (frame_range : Option (Nat × Nat)) : ZoneResult :=
  let sel := effectiveIonSel ion_selection region
  let s := runLoop u sel partner_selection (framesIterated u frame_range)
  { bins := s.bins
    rdf_avg := meanAxis0 s.rdf_list
    cumu_avg := meanAxis0 s.rdf_cumu
    rdf_coord := s.rdf_coord }

/-- Average coordination number printed at lines 107-108,
`coord_avg = np.mean(rdf_coord, axis=0)`, computed from the same
`rdf_coord` list that the function returns. -/
def coord_avg_of (res : ZoneResult) : Option ℚ := scalarMean res.rdf_coord

/-- Frames of the iterated range that are retained, i.e. whose ion selection
is non-empty (negation of the guard at line 88). -/
def retainedFrames (u : Universe) (ionSel : String) (frames : List Nat) : List Nat :=
  frames.filter (fun t => decide (u.selCount ionSel t ≠ 0))

/-- Number of frames skipped by the guard at lines 88-89. -/
def skippedCount (u : Universe) (ionSel : String) (frames : List Nat) : Nat :=
  (frames.filter (fun t => decide (u.selCount ionSel t = 0))).length

/-- Configuration record consumed by `run_analysis` (lines 146-152): the
recognized keys of one zone dictionary. -/
structure AnalysisConfig where
  name : String
  ion_selection : String
  partner_selection : String
  region : Option (String × String) := none
  frame_range : Option (Nat × Nat) := none

/-- Result computed for one zone configuration inside `run_analysis`
(lines 148-153). -/
def zoneResult (u : Universe) (c : AnalysisConfig) : ZoneResult :=
  analyze_rdf u c.ion_selection c.partner_selection c.region c.frame_range

/-- Embedding of `MDTrajAnalyser.run_analysis` (lines 139-168): each
configuration is analyzed in turn and its outputs are emitted under the
zone's name. -/
def run_analysis (u : Universe) (configs : List AnalysisConfig) :
    List (String × ZoneResult) :=
  configs.map (fun c => (c.name, zoneResult u c))

/-- Line count of `<name>_rdf.csv` written at lines 156-158: the
`to_csv(index=False)` output has one header row plus one row per
(radius, RDF) pair of the two equal-length columns. -/
def rdf_csv_line_count (res : ZoneResult) : Nat :=
  1 + (List.zip (res.bins.getD []) (res.rdf_avg.getD [])).length

/-- Line count of `<name>_coordno.csv` written by `np.savetxt` at lines
161-165: a single `# Coordination number` header line plus one row per
per-frame coordination number. -/
def coordno_line_count (res : ZoneResult) : Nat :=
  1 + res.rdf_coord.length

/-- Resolution of the `bins` variable after processing a list of retained
frames starting from the state `b`: once set it never changes, otherwise it
is taken from the first retained frame. -/
def binsResolve (b : Option (List ℚ)) (u : Universe) (l : List Nat) : Option (List ℚ) :=
  match b with
  | some x => some x
  | none => l.head?.map u.interBins

theorem binsResolve_nil (b : Option (List ℚ)) (u : Universe) : binsResolve b u [] = b := by
  cases b <;> rfl

theorem binsResolve_cons (b : Option (List ℚ)) (u : Universe) (t : Nat) (l : List Nat) :
    binsResolve b u (t :: l) = some (b.getD (u.interBins t)) := by
  cases b <;> rfl

/-- Characterization of the frame loop from an arbitrary intermediate state:
every accumulator receives the per-frame data of exactly the retained
frames, in order, and `bins` is resolved from the first retained frame. -/
theorem foldl_stepFrame_eq (u : Universe) (i p : String) (frames : List Nat)
    (s : LoopState) :
    frames.foldl (stepFrame u i p) s =
      { rdf_list := s.rdf_list ++ (retainedFrames u i frames).map (u.interRdf i p)
        rdf_coord := s.rdf_coord ++ (retainedFrames u i frames).map
            (fun t => (frameProfile u i p t).getD coordIndex 0)
        rdf_cumu := s.rdf_cumu ++ (retainedFrames u i frames).map (frameProfile u i p)
        bins := binsResolve s.bins u (retainedFrames u i frames) } := by
  induction frames generalizing s with
  | nil =>
    cases s with
    | mk a b c d => simp [retainedFrames, binsResolve_nil]
  | cons t ts ih =>
    by_cases h : u.selCount i t = 0
    · have hret : retainedFrames u i (t :: ts) = retainedFrames u i ts := by
        simp [retainedFrames, List.filter_cons, h]
      have hstep : stepFrame u i p s t = s := by simp [stepFrame, h]
      rw [List.foldl_cons, hstep, ih, hret]
    · have hret : retainedFrames u i (t :: ts) = t :: retainedFrames u i ts := by
        simp [retainedFrames, List.filter_cons, h]
      rw [List.foldl_cons, ih, hret]
      simp only [stepFrame, if_neg h]
      rw [binsResolve_cons]
      simp [List.append_assoc, binsResolve]

/-- Characterization of the full frame loop from the initial state. -/
theorem runLoop_eq (u : Universe) (i p : String) (frames : List Nat) :
    runLoop u i p frames =
      { rdf_list := (retainedFrames u i frames).map (u.interRdf i p)
        rdf_coord := (retainedFrames u i frames).map
            (fun t => (frameProfile u i p t).getD coordIndex 0)
        rdf_cumu := (retainedFrames u i frames).map (frameProfile u i p)
        bins := (retainedFrames u i frames).head?.map u.interBins } := by
  have h := foldl_stepFrame_eq u i p frames initState
  simpa [runLoop, initState, binsResolve] using h

/-- Characterization of `analyze_rdf` in terms of the retained frames. -/
theorem analyze_rdf_eq (u : Universe) (i p : String) (region : Option (String × String))
    (fr : Option (Nat × Nat)) :
    analyze_rdf u i p region fr =
      { bins := (retainedFrames u (effectiveIonSel i region)
            (framesIterated u fr)).head?.map u.interBins
        rdf_avg := meanAxis0 ((retainedFrames u (effectiveIonSel i region)
            (framesIterated u fr)).map (u.interRdf (effectiveIonSel i region) p))
        cumu_avg := meanAxis0 ((retainedFrames u (effectiveIonSel i region)
            (framesIterated u fr)).map (frameProfile u (effectiveIonSel i region) p))
        rdf_coord := (retainedFrames u (effectiveIonSel i region)
            (framesIterated u fr)).map
            (fun t => (frameProfile u (effectiveIonSel i region) p t).getD coordIndex 0) } := by
  simp only [analyze_rdf, runLoop_eq]

theorem length_cumsumFrom (l : List ℚ) : ∀ acc, (cumsumFrom acc l).length = l.length := by
  induction l with
  | nil => intro acc; rfl
  | cons x xs ih => intro acc; simp [cumsumFrom, ih]

theorem length_cumsum (l : List ℚ) : (cumsum l).length = l.length :=
  length_cumsumFrom l 0

theorem length_frameProfile (u : Universe) (i p : String) (t : Nat) :
    (frameProfile u i p t).length = (u.interHist i p t).length := by
  simp [frameProfile, length_cumsum]

theorem chain'_cumsumFrom (l : List ℚ) :
    ∀ acc, (∀ x ∈ l, 0 ≤ x) → (cumsumFrom acc l).Chain' (· ≤ ·) := by
  induction l with
  | nil => intro acc _; simp [cumsumFrom]
  | cons x xs ih =>
    intro acc h
    simp only [cumsumFrom]
    rw [List.chain'_cons']
    refine ⟨?_, ih (acc + x) (fun y hy => h y (List.mem_cons_of_mem _ hy))⟩
    intro y hy
    cases xs with
    | nil => simp [cumsumFrom] at hy
    | cons z zs =>
      simp only [cumsumFrom, List.head?_cons, Option.mem_def, Option.some.injEq] at hy
      have hz : (0 : ℚ) ≤ z := h z (by simp)
      rw [← hy]
      linarith

theorem chain'_cumsum (l : List ℚ) (h : ∀ x ∈ l, 0 ≤ x) : (cumsum l).Chain' (· ≤ ·) :=
  chain'_cumsumFrom l 0 h

theorem div_mono_nonneg {a b c : ℚ} (hab : a ≤ b) (hc : 0 ≤ c) : a / c ≤ b / c := by
  rw [div_eq_mul_inv, div_eq_mul_inv]
  exact mul_le_mul_of_nonneg_right hab (inv_nonneg.2 hc)

theorem chain'_map_div {l : List ℚ} (hl : l.Chain' (· ≤ ·)) (c : ℚ) (hc : 0 ≤ c) :
    (l.map (fun x => x / c)).Chain' (· ≤ ·) := by
  rw [List.chain'_map]
  exact hl.imp (fun a b hab => div_mono_nonneg hab hc)

theorem chain'_vecAdd (a : List ℚ) :
    ∀ b : List ℚ, a.Chain' (· ≤ ·) → b.Chain' (· ≤ ·) → (vecAdd a b).Chain' (· ≤ ·) := by
  induction a with
  | nil => intro b _ _; simp [vecAdd]
  | cons x xs ih =>
    intro b ha hb
    cases b with
    | nil => simp [vecAdd]
    | cons y ys =>
      simp only [vecAdd, List.zipWith_cons_cons]
      rw [List.chain'_cons']
      refine ⟨?_, ih ys ha.tail hb.tail⟩
      intro z hz
      cases xs with
      | nil => simp [List.zipWith] at hz
      | cons x' xs' =>
        cases ys with
        | nil => simp [List.zipWith] at hz
        | cons y' ys' =>
          simp only [List.zipWith_cons_cons, List.head?_cons, Option.mem_def,
            Option.some.injEq] at hz
          have hx : x ≤ x' := (List.chain'_cons.1 ha).1
          have hy : y ≤ y' := (List.chain'_cons.1 hb).1
          rw [← hz]
          linarith

theorem chain'_foldl_vecAdd (rows : List (List ℚ)) :
    ∀ acc : List ℚ, acc.Chain' (· ≤ ·) → (∀ r ∈ rows, r.Chain' (· ≤ ·)) →
      (rows.foldl vecAdd acc).Chain' (· ≤ ·) := by
  induction rows with
  | nil => intro acc ha _; simpa using ha
  | cons r rs ih =>
    intro acc ha hr
    rw [List.foldl_cons]
    exact ih (vecAdd acc r) (chain'_vecAdd acc r ha (hr r (by simp)))
      (fun r' hr' => hr r' (List.mem_cons_of_mem _ hr'))

theorem meanAxis0_chain' {ls : List (List ℚ)} (h : ∀ r ∈ ls, r.Chain' (· ≤ ·)) :
    ∀ avg, meanAxis0 ls = some avg → avg.Chain' (· ≤ ·) := by
  intro avg havg
  cases ls with
  | nil => simp [meanAxis0] at havg
  | cons x xs =>
    simp only [meanAxis0, Option.some.injEq] at havg
    rw [← havg]
    exact chain'_map_div
      (chain'_foldl_vecAdd xs x (h x (by simp))
        (fun r hr => h r (List.mem_cons_of_mem _ hr)))
      _ (by positivity)

theorem length_vecAdd (a b : List ℚ) : (vecAdd a b).length = min a.length b.length :=
  List.length_zipWith _ _ _

theorem length_foldl_vecAdd (rows : List (List ℚ)) (n : Nat) :
    ∀ acc : List ℚ, acc.length = n → (∀ r ∈ rows, r.length = n) →
      (rows.foldl vecAdd acc).length = n := by
  induction rows with
  | nil => intro acc ha _; simpa using ha
  | cons r rs ih =>
    intro acc ha hr
    rw [List.foldl_cons]
    refine ih (vecAdd acc r) ?_ (fun r' hr' => hr r' (List.mem_cons_of_mem _ hr'))
    rw [length_vecAdd, ha, hr r (by simp), Nat.min_self]

theorem meanAxis0_length {ls : List (List ℚ)} {n : Nat} (h : ∀ r ∈ ls, r.length = n)
    (hne : ls ≠ []) : ∃ avg, meanAxis0 ls = some avg ∧ avg.length = n := by
  cases ls with
  | nil => cases hne rfl
  | cons x xs =>
    refine ⟨_, rfl, ?_⟩
    rw [List.length_map]
    exact length_foldl_vecAdd xs n x (h x (by simp))
      (fun r hr => h r (List.mem_cons_of_mem _ hr))

/-- Sum of the rows of a non-empty list of rows, the numerator of
`np.mean(rows, axis=0)`. -/
def vecSumRows : List (List ℚ) → List ℚ
  | [] => []
  | x :: xs => xs.foldl vecAdd x

theorem meanAxis0_eq_sum {ls : List (List ℚ)} (h : ls ≠ []) :
    meanAxis0 ls = some ((vecSumRows ls).map (fun v => v / (ls.length : ℚ))) := by
  cases ls with
  | nil => cases h rfl
  | cons x xs => rfl

theorem scalarMean_eq_sum {l : List ℚ} (h : l ≠ []) :
    scalarMean l = some (l.sum / (l.length : ℚ)) := by
  cases l with
  | nil => cases h rfl
  | cons x xs => rfl

theorem vecAdd_map_mul (m : ℚ) (v : List ℚ) :
    vecAdd (v.map (fun x => m * x)) v = v.map (fun x => (m + 1) * x) := by
  induction v with
  | nil => rfl
  | cons x xs ih =>
    simp only [List.map_cons, vecAdd, List.zipWith_cons_cons] at *
    refine congrArg₂ _ (by ring) ih

theorem foldl_vecAdd_replicate (v : List ℚ) (k : Nat) :
    ∀ m : ℚ, (List.replicate k v).foldl vecAdd (v.map (fun x => m * x)) =
      v.map (fun x => (m + k) * x) := by
  induction k with
  | zero => intro m; simp
  | succ k ih =>
    intro m
    rw [List.replicate_succ, List.foldl_cons, vecAdd_map_mul, ih]
    refine List.map_congr_left (fun x _ => ?_)
    push_cast
    ring

theorem meanAxis0_const {ls : List (List ℚ)} (v : List ℚ) (hne : ls ≠ [])
    (hall : ∀ x ∈ ls, x = v) : meanAxis0 ls = some v := by
  cases ls with
  | nil => cases hne rfl
  | cons x xs =>
    have hx : x = v := hall x (by simp)
    have hxs : xs = List.replicate xs.length v :=
      List.eq_replicate_iff.2 ⟨rfl, fun b hb => hall b (List.mem_cons_of_mem _ hb)⟩
    have hv : x = v.map (fun y => (1 : ℚ) * y) := by simpa using hx
    have hfold : xs.foldl vecAdd (v.map (fun y => (1 : ℚ) * y)) =
        v.map (fun y => ((1 : ℚ) + xs.length) * y) := by
      conv_lhs => rw [hxs]
      exact foldl_vecAdd_replicate v xs.length 1
    simp only [meanAxis0, Option.some.injEq]
    rw [hv, hfold, List.map_map]
    have hk : ((xs.length : ℚ) + 1) ≠ 0 := by positivity
    have hpt : ∀ y ∈ v,
        ((fun w => w / ((xs.length + 1 : Nat) : ℚ)) ∘ fun y => ((1 : ℚ) + xs.length) * y) y
          = y := by
      intro y _
      simp only [Function.comp]
      push_cast
      rw [add_comm (1 : ℚ)]
      exact mul_div_cancel_left₀ y hk
    rw [List.map_congr_left hpt, List.map_id']

theorem retained_add_skipped (u : Universe) (i : String) (frames : List Nat) :
    (retainedFrames u i frames).length + skippedCount u i frames = frames.length := by
  induction frames with
  | nil => rfl
  | cons t ts ih =>
    by_cases h : u.selCount i t = 0 <;>
      simp [retainedFrames, skippedCount, List.filter_cons, h] at * <;> omega

theorem mem_retained {u : Universe} {i : String} {frames : List Nat} {t : Nat}
    (h : t ∈ retainedFrames u i frames) : u.selCount i t ≠ 0 := by
  have := (List.mem_filter.1 h).2
  exact of_decide_eq_true this

/-- Concrete three-frame universe used by the witnesses: frame 1 has an empty
ion selection, frames 0 and 2 select two ions, and the library arrays are
constant across frames. -/
def testU : Universe where
  nframes := 3
  selCount := fun _ t => if t = 1 then 0 else 2
  interRdf := fun _ _ _ => List.replicate nbins 1
  interHist := fun _ _ _ => List.replicate nbins 1
  interBins := fun _ => List.replicate nbins (1 / 2)

/-- Concrete universe whose ion selection is empty at every frame. -/
def emptyU : Universe where
  nframes := 3
  selCount := fun _ _ => 0
  interRdf := fun _ _ _ => []
  interHist := fun _ _ _ => []
  interBins := fun _ => []

/-- Concrete universe with 25000 frames. -/
def longU : Universe where
  nframes := 25000
  selCount := fun _ _ => 0
  interRdf := fun _ _ _ => []
  interHist := fun _ _ _ => []
  interBins := fun _ => []

/-- C1: when the ion selection is empty on every frame, `analyze_rdf` does
NOT surface an explicit empty-result error: the loop retains nothing, the
function returns normally with `bins = None` and the NaN-producing means of
empty lists (modelled `none`), and an empty coordination list.  NumPy's mean
of an empty list only emits a RuntimeWarning, so the degenerate result flows
on to plotting and serialization, contradicting the claimed behavior. -/
theorem analyze_rdf_all_empty_returns_none (u : Universe) (i p : String)
    (region : Option (String × String)) (fr : Option (Nat × Nat))
    (hempty : ∀ t, u.selCount (effectiveIonSel i region) t = 0) :
    analyze_rdf u i p region fr =
      { bins := none, rdf_avg := none, cumu_avg := none, rdf_coord := [] } := by
  have hret : retainedFrames u (effectiveIonSel i region) (framesIterated u fr) = [] := by
    simp [retainedFrames, hempty]
  rw [analyze_rdf_eq, hret]
  rfl

/-- C1 witness: on a concrete trajectory whose ion selection is empty on all
three frames of the range, `analyze_rdf` returns the degenerate NaN-modelled
result rather than raising. -/
theorem analyze_rdf_all_empty_returns_none_witness :
    analyze_rdf emptyU "name CL" "name OW" none (some (0, 3)) =
      { bins := none, rdf_avg := none, cumu_avg := none, rdf_coord := [] } :=
  analyze_rdf_all_empty_returns_none emptyU "name CL" "name OW" none (some (0, 3))
    (fun _ => rfl)

/-- C2: frames whose ion selection is empty contribute to none of the
accumulators, and the returned RDF average, cumulative-profile average and
the coordination-number average computed from the returned per-frame list
are unweighted arithmetic means whose denominator is the number of retained
frames only. -/
theorem analyze_rdf_averages_over_retained (u : Universe) (i p : String)
    (region : Option (String × String)) (fr : Option (Nat × Nat))
    (sel : String) (hsel : sel = effectiveIonSel i region)
    (R : List Nat) (hR : R = retainedFrames u sel (framesIterated u fr))
    (hne : R ≠ []) :
    (analyze_rdf u i p region fr).rdf_avg =
        some ((vecSumRows (R.map (u.interRdf sel p))).map (fun v => v / (R.length : ℚ)))
    ∧ (analyze_rdf u i p region fr).cumu_avg =
        some ((vecSumRows (R.map (frameProfile u sel p))).map (fun v => v / (R.length : ℚ)))
    ∧ coord_avg_of (analyze_rdf u i p region fr) =
        some ((R.map (fun t => (frameProfile u sel p t).getD coordIndex 0)).sum
          / (R.length : ℚ))
    ∧ (analyze_rdf u i p region fr).rdf_coord =
        R.map (fun t => (frameProfile u sel p t).getD coordIndex 0) := by
  subst hsel
  subst hR
  have hmapne : ∀ {α : Type} (f : Nat → α),
      (retainedFrames u (effectiveIonSel i region) (framesIterated u fr)).map f ≠ [] :=
    fun f h => hne (by simpa using h)
  simp only [analyze_rdf_eq]
  refine ⟨?_, ?_, ?_, trivial⟩
  · rw [meanAxis0_eq_sum (hmapne _), List.length_map]
  · rw [meanAxis0_eq_sum (hmapne _), List.length_map]
  · simp only [coord_avg_of]
    rw [scalarMean_eq_sum (hmapne _), List.length_map]

/-- C2 witness: on the concrete three-frame trajectory with frame 1 empty,
the averages of `analyze_rdf` are means over the two retained frames. -/
theorem analyze_rdf_averages_over_retained_witness :
    (analyze_rdf testU "name CL" "name OW" none (some (0, 3))).rdf_avg =
        some ((vecSumRows ((retainedFrames testU (effectiveIonSel "name CL" none)
            (framesIterated testU (some (0, 3)))).map
            (testU.interRdf (effectiveIonSel "name CL" none) "name OW"))).map
          (fun v => v / ((retainedFrames testU (effectiveIonSel "name CL" none)
            (framesIterated testU (some (0, 3)))).length : ℚ)))
    ∧ (analyze_rdf testU "name CL" "name OW" none (some (0, 3))).cumu_avg =
        some ((vecSumRows ((retainedFrames testU (effectiveIonSel "name CL" none)
            (framesIterated testU (some (0, 3)))).map
            (frameProfile testU (effectiveIonSel "name CL" none) "name OW"))).map
          (fun v => v / ((retainedFrames testU (effectiveIonSel "name CL" none)
            (framesIterated testU (some (0, 3)))).length : ℚ)))
    ∧ coord_avg_of (analyze_rdf testU "name CL" "name OW" none (some (0, 3))) =
        some (((retainedFrames testU (effectiveIonSel "name CL" none)
            (framesIterated testU (some (0, 3)))).map
            (fun t => (frameProfile testU (effectiveIonSel "name CL" none) "name OW" t).getD
              coordIndex 0)).sum
          / ((retainedFrames testU (effectiveIonSel "name CL" none)
            (framesIterated testU (some (0, 3)))).length : ℚ))
    ∧ (analyze_rdf testU "name CL" "name OW" none (some (0, 3))).rdf_coord =
        (retainedFrames testU (effectiveIonSel "name CL" none)
            (framesIterated testU (some (0, 3)))).map
          (fun t => (frameProfile testU (effectiveIonSel "name CL" none) "name OW" t).getD
            coordIndex 0) :=
  analyze_rdf_averages_over_retained testU "name CL" "name OW" none (some (0, 3))
    _ rfl _ rfl (by decide)

/-- C3: for the retained frames, the per-frame cumulative coordination
profile recorded by the loop is the cumulative sum of the pair-count
histogram divided by the frame's ion count, the per-frame scalar
coordination number is the value of that profile at bin index 38, and under
the 150-bin histogram contract every recorded profile has 150 entries. -/
theorem runLoop_per_frame_profile (u : Universe) (i p : String)
    (region : Option (String × String)) (fr : Option (Nat × Nat))
    (sel : String) (hsel : sel = effectiveIonSel i region)
    (R : List Nat) (hR : R = retainedFrames u sel (framesIterated u fr))
    (hlen : ∀ t ∈ R, (u.interHist sel p t).length = nbins) :
    (runLoop u sel p (framesIterated u fr)).rdf_cumu =
        R.map (fun t => (cumsum (u.interHist sel p t)).map
          (fun c => c / ((u.selCount sel t : Nat) : ℚ)))
    ∧ (runLoop u sel p (framesIterated u fr)).rdf_coord =
        ((runLoop u sel p (framesIterated u fr)).rdf_cumu).map (fun c => c.getD 38 0)
    ∧ ∀ c ∈ (runLoop u sel p (framesIterated u fr)).rdf_cumu, c.length = 150 := by
  subst hsel
  subst hR
  rw [runLoop_eq]
  refine ⟨rfl, ?_, ?_⟩
  · rw [List.map_map]
    rfl
  · intro c hc
    obtain ⟨t, ht, rfl⟩ := List.mem_map.1 hc
    rw [length_frameProfile, hlen t ht]
    rfl

/-- C3 witness: the per-frame profiles of the concrete three-frame
trajectory. -/
theorem runLoop_per_frame_profile_witness :
    (runLoop testU (effectiveIonSel "name CL" none) "name OW"
        (framesIterated testU (some (0, 3)))).rdf_cumu =
      (retainedFrames testU (effectiveIonSel "name CL" none)
          (framesIterated testU (some (0, 3)))).map
        (fun t => (cumsum (testU.interHist (effectiveIonSel "name CL" none) "name OW" t)).map
          (fun c => c / ((testU.selCount (effectiveIonSel "name CL" none) t : Nat) : ℚ)))
    ∧ (runLoop testU (effectiveIonSel "name CL" none) "name OW"
        (framesIterated testU (some (0, 3)))).rdf_coord =
      ((runLoop testU (effectiveIonSel "name CL" none) "name OW"
          (framesIterated testU (some (0, 3)))).rdf_cumu).map (fun c => c.getD 38 0)
    ∧ ∀ c ∈ (runLoop testU (effectiveIonSel "name CL" none) "name OW"
        (framesIterated testU (some (0, 3)))).rdf_cumu, c.length = 150 :=
  runLoop_per_frame_profile testU "name CL" "name OW" none (some (0, 3))
    _ rfl _ rfl (by decide)

/-- C4: supplying radial bounds appends the cylindrical-layer predicate with
half-height parameters `10 -10` to the ion selection exactly once before the
frame loop — running with a region equals running with the pre-appended
selection and no region — and the appended selection is re-evaluated against
every frame index of the loop, so membership is dynamic per frame. -/
theorem analyze_rdf_region_appends_cylayer (u : Universe) (i p lo hi : String)
    (fr : Option (Nat × Nat)) :
    analyze_rdf u i p (some (lo, hi)) fr =
        analyze_rdf u (i ++ (" and cylayer " ++ lo ++ " " ++ hi ++ " 10 -10")) p none fr
    ∧ effectiveIonSel i (some (lo, hi)) = i ++ cylayerSuffix lo hi
    ∧ (runLoop u (effectiveIonSel i (some (lo, hi))) p (framesIterated u fr)).rdf_list =
        ((framesIterated u fr).filter
            (fun t => decide (u.selCount (i ++ cylayerSuffix lo hi) t ≠ 0))).map
          (fun t => u.interRdf (i ++ cylayerSuffix lo hi) p t) := by
  refine ⟨rfl, rfl, ?_⟩
  rw [runLoop_eq]
  rfl

/-- C5: the bin centers of the result are those of the first retained frame
(set exactly once, when the variable is still unset), and when the binning
configuration never changes within the run they agree with the bin centers
of every retained frame. -/
theorem analyze_rdf_bins_first_retained (u : Universe) (i p : String)
    (region : Option (String × String)) (fr : Option (Nat × Nat))
    (sel : String) (hsel : sel = effectiveIonSel i region)
    (R : List Nat) (hR : R = retainedFrames u sel (framesIterated u fr))
    (hconst : ∀ t t', u.interBins t = u.interBins t') :
    (analyze_rdf u i p region fr).bins = R.head?.map u.interBins
    ∧ ∀ t ∈ R, (analyze_rdf u i p region fr).bins = some (u.interBins t) := by
  subst hsel
  subst hR
  rw [analyze_rdf_eq]
  refine ⟨rfl, ?_⟩
  intro t ht
  obtain ⟨r, rs, hcons⟩ := List.exists_cons_of_ne_nil (List.ne_nil_of_mem ht)
  rw [hcons]
  simp [hconst r t]

/-- C5 witness: bins of the concrete trajectory come from the first retained
frame and agree with every retained frame's bins. -/
theorem analyze_rdf_bins_first_retained_witness :
    (analyze_rdf testU "name CL" "name OW" none (some (0, 3))).bins =
      (retainedFrames testU (effectiveIonSel "name CL" none)
          (framesIterated testU (some (0, 3)))).head?.map testU.interBins
    ∧ ∀ t ∈ retainedFrames testU (effectiveIonSel "name CL" none)
        (framesIterated testU (some (0, 3))),
      (analyze_rdf testU "name CL" "name OW" none (some (0, 3))).bins =
        some (testU.interBins t) :=
  analyze_rdf_bins_first_retained testU "name CL" "name OW" none (some (0, 3))
    _ rfl _ rfl (fun _ _ => rfl)

/-- C6: with no frame range supplied, the loop iterates exactly over frame
indices 20000 (inclusive) to 25000 (exclusive), provided the trajectory has
at least 25000 frames (Python slicing would clamp a shorter trajectory). -/
theorem framesIterated_default_range (u : Universe) (h : 25000 ≤ u.nframes) :
    framesIterated u none = List.range' 20000 5000 := by
  show sliceIndices u.nframes 20000 25000 = _
  unfold sliceIndices
  rw [Nat.min_eq_left (le_trans (by norm_num) h), Nat.min_eq_left h]

/-- C6 witness: on a 25000-frame trajectory the default loop range is
frames 20000 to 24999. -/
theorem framesIterated_default_range_witness :
    framesIterated longU none = List.range' 20000 5000 :=
  framesIterated_default_range longU (le_refl _)

/-- C7: for retained frames with non-negative histogram counts, every
recorded per-frame cumulative coordination profile is monotonically
non-decreasing in bin index, and hence so is the frame-averaged cumulative
profile whenever it exists. -/
theorem cumulative_profile_monotone (u : Universe) (i p : String)
    (region : Option (String × String)) (fr : Option (Nat × Nat))
    (sel : String) (hsel : sel = effectiveIonSel i region)
    (R : List Nat) (hR : R = retainedFrames u sel (framesIterated u fr))
    (hpos : ∀ t ∈ R, ∀ x ∈ u.interHist sel p t, (0 : ℚ) ≤ x) :
    (∀ c ∈ (runLoop u sel p (framesIterated u fr)).rdf_cumu, c.Chain' (· ≤ ·))
    ∧ ∀ avg, (analyze_rdf u i p region fr).cumu_avg = some avg → avg.Chain' (· ≤ ·) := by
  subst hsel
  subst hR
  have hrow : ∀ c ∈ (retainedFrames u (effectiveIonSel i region)
      (framesIterated u fr)).map (frameProfile u (effectiveIonSel i region) p),
      c.Chain' (· ≤ ·) := by
    intro c hc
    obtain ⟨t, ht, rfl⟩ := List.mem_map.1 hc
    exact chain'_map_div (chain'_cumsum _ (hpos t ht)) _ (by positivity)
  constructor
  · rw [runLoop_eq]
    exact hrow
  · intro avg havg
    rw [analyze_rdf_eq] at havg
    exact meanAxis0_chain' hrow avg havg

/-- C7 witness: monotone per-frame and averaged profiles on the concrete
three-frame trajectory. -/
theorem cumulative_profile_monotone_witness :
    (∀ c ∈ (runLoop testU (effectiveIonSel "name CL" none) "name OW"
        (framesIterated testU (some (0, 3)))).rdf_cumu, c.Chain' (· ≤ ·))
    ∧ ∀ avg, (analyze_rdf testU "name CL" "name OW" none (some (0, 3))).cumu_avg = some avg →
        avg.Chain' (· ≤ ·) :=
  cumulative_profile_monotone testU "name CL" "name OW" none (some (0, 3))
    _ rfl _ rfl (by decide)

/-- C8: when every retained frame yields the same per-frame RDF array, the
frame-averaged RDF returned by `analyze_rdf` equals that single-frame RDF
exactly, for any number N of retained frames with N at least 1. -/
theorem rdf_avg_identical_frames (u : Universe) (i p : String)
    (region : Option (String × String)) (fr : Option (Nat × Nat))
    (sel : String) (hsel : sel = effectiveIonSel i region)
    (R : List Nat) (hR : R = retainedFrames u sel (framesIterated u fr))
    (v : List ℚ) (hne : R ≠ []) (hsame : ∀ t ∈ R, u.interRdf sel p t = v) :
    (analyze_rdf u i p region fr).rdf_avg = some v := by
  subst hsel
  subst hR
  have h := analyze_rdf_eq u i p region fr
  rw [h]
  refine meanAxis0_const v (fun hmap => hne (by simpa using hmap)) ?_
  intro x hx
  obtain ⟨t, ht, rfl⟩ := List.mem_map.1 hx
  exact hsame t ht

/-- C8 witness: two identical retained frames average back to the
single-frame RDF. -/
theorem rdf_avg_identical_frames_witness :
    (analyze_rdf testU "name CL" "name OW" none (some (0, 3))).rdf_avg =
      some (List.replicate nbins 1) :=
  rdf_avg_identical_frames testU "name CL" "name OW" none (some (0, 3))
    _ rfl _ rfl (List.replicate nbins 1) (by decide) (fun _ _ => rfl)

/-- C9: for a zone processed by `run_analysis`, the emitted RDF CSV has
exactly 150 data rows plus one header row, and the coordination-number file
has one header line plus one row per retained frame, i.e. the frame count of
the range minus the number of skipped frames. -/
theorem zone_csv_line_counts (u : Universe) (c : AnalysisConfig)
    (sel : String) (hsel : sel = effectiveIonSel c.ion_selection c.region)
    (frames : List Nat) (hframes : frames = framesIterated u c.frame_range)
    (R : List Nat) (hR : R = retainedFrames u sel frames)
    (hne : R ≠ [])
    (hbins : ∀ t ∈ R, (u.interBins t).length = nbins)
    (hrdf : ∀ t ∈ R, (u.interRdf sel c.partner_selection t).length = nbins) :
    rdf_csv_line_count (zoneResult u c) = 151
    ∧ coordno_line_count (zoneResult u c) =
        1 + (frames.length - skippedCount u sel frames)
    ∧ ∀ configs, c ∈ configs → (c.name, zoneResult u c) ∈ run_analysis u configs := by
  refine ⟨?_, ?_, fun cfgs hc => List.mem_map.2 ⟨c, hc, rfl⟩⟩
  · simp only [zoneResult, rdf_csv_line_count, analyze_rdf_eq]
    rw [← hsel, ← hframes, ← hR]
    obtain ⟨r, rs, hcons⟩ := List.exists_cons_of_ne_nil hne
    have hrmem : r ∈ R := by rw [hcons]; exact List.mem_cons_self r rs
    have hrowlen : ∀ row ∈ R.map (u.interRdf sel c.partner_selection),
        row.length = nbins := by
      intro row hrow
      obtain ⟨t, ht, rfl⟩ := List.mem_map.1 hrow
      exact hrdf t ht
    have hmapne : R.map (u.interRdf sel c.partner_selection) ≠ [] :=
      fun h => hne (by simpa using h)
    obtain ⟨avg, havg, hlenavg⟩ := meanAxis0_length hrowlen hmapne
    rw [havg, hcons]
    simp [List.length_zip, hbins r hrmem, hlenavg, nbins]
  · simp only [zoneResult, coordno_line_count, analyze_rdf_eq]
    rw [← hsel, ← hframes, ← hR]
    have hcount := retained_add_skipped u sel frames
    rw [← hR] at hcount
    simp only [List.length_map]
    omega

/-- Concrete zone configuration used by the C9 witness. -/
def testConfig : AnalysisConfig :=
  { name := "bulk"
    ion_selection := "name CL"
    partner_selection := "name OW"
    region := none
    frame_range := some (0, 3) }

/-- C9 witness: line counts of the files emitted for the concrete zone. -/
theorem zone_csv_line_counts_witness :
    rdf_csv_line_count (zoneResult testU testConfig) = 151
    ∧ coordno_line_count (zoneResult testU testConfig) =
        1 + ((framesIterated testU testConfig.frame_range).length -
          skippedCount testU (effectiveIonSel testConfig.ion_selection testConfig.region)
            (framesIterated testU testConfig.frame_range))
    ∧ ∀ configs, testConfig ∈ configs →
        (testConfig.name, zoneResult testU testConfig) ∈ run_analysis testU configs :=
  zone_csv_line_counts testU testConfig _ rfl _ rfl _ rfl (by decide)
    (by intro t _; simp [testU]) (by intro t _; simp [testU])

/-- C10: on every retained frame the zero-ion guard gives a positive ion
count (so the division normalizing the cumulative counts has a nonzero
denominator), and under the fixed 150-bin histogram the per-frame cumulative
profile has length 150, so the read at bin index 38 is in bounds. -/
theorem retained_frame_safety (u : Universe) (i p : String)
    (region : Option (String × String)) (fr : Option (Nat × Nat))
    (sel : String) (hsel : sel = effectiveIonSel i region)
    (R : List Nat) (hR : R = retainedFrames u sel (framesIterated u fr))
    (hlen : ∀ t ∈ R, (u.interHist sel p t).length = nbins) :
    ∀ t ∈ R, 0 < u.selCount sel t
      ∧ (frameProfile u sel p t).length = nbins
      ∧ coordIndex < (frameProfile u sel p t).length := by
  subst hsel
  subst hR
  intro t ht
  have h0 := mem_retained ht
  have hl : (frameProfile u (effectiveIonSel i region) p t).length = nbins := by
    rw [length_frameProfile, hlen t ht]
  refine ⟨Nat.pos_of_ne_zero h0, hl, ?_⟩
  rw [hl]
  norm_num [coordIndex, nbins]

/-- C10 witness: positive ion counts and in-bounds index-38 reads on the
concrete trajectory. -/
theorem retained_frame_safety_witness :
    0 < testU.selCount (effectiveIonSel "name CL" none) 0
    ∧ (frameProfile testU (effectiveIonSel "name CL" none) "name OW" 0).length = nbins
    ∧ coordIndex <
        (frameProfile testU (effectiveIonSel "name CL" none) "name OW" 0).length :=
  retained_frame_safety testU "name CL" "name OW" none (some (0, 3))
    _ rfl _ rfl (by intro t _; simp [testU]) 0 (by decide)

end ZoneRDF
